import Mathlib

/-!
Verification of the OceanBase-backed cache layer of coze-studio
(`backend/infra/impl/cache/oceanbase`): a relational-store-backed
key-value cache, hash-map table, counter, and polling pub/sub, consumed
through the `cache.Client` contract and the `CmdableAdapter` facade.

The embedding models time as an explicit integer parameter `now`
(Go `time.Now()`), the `cache_kvs` table as a finite map from keys to
physical rows (the table has a unique constraint on `cache_key`), and the
`cache_maps` table as a list of rows in id order (unique on
`(cache_key, cache_field)`).  Database I/O errors are out of scope; the
errors modelled are the ones the code itself produces.
-/

namespace ObCache

/-- Errors produced by the cache layer itself: `cache.ErrNotFound`, and the
`strconv.ParseInt` failure surfaced by `CmdableAdapter.IncrBy`. -/
inductive CacheErr where
  | notFound
  | parseError
  deriving DecidableEq, Repr

/-- A Go `[]byte` value: `none` models the `nil` slice, `some s` a byte
slice holding the bytes of `s`. -/
abbrev ByteVal := Option String

/-- Go `string(b)` on a `[]byte`: the nil slice converts to `""`. -/
def goString (b : ByteVal) : String := b.getD ""

/-- A value passed as Go `any` to `Set`/`SetNX`: a byte slice, a string, or
any other type (tagged, so that there are many distinct such values). -/
inductive GoValue where
  | bytes (b : ByteVal)
  | str (s : String)
  | other (tag : Nat)
  deriving DecidableEq, Repr

/-- `toBytes` (part_000 lines 70-78): `[]byte` passes through, `string`
converts to its bytes, every other type silently becomes `nil`. -/
def toBytes : GoValue → ByteVal
  | .bytes b => b
  | .str s => some s
  | .other _ => none

/-- One physical row of `cache_kvs`: the blob value and the absolute
`expire_time` stamp. -/
structure KVEntry where
  value : ByteVal
  expireAt : Int
  deriving DecidableEq, Repr

/-- The `cache_kvs` table.  `cache_key` is unique, so the table is a map
from key to at most one physical row; `none` means no row is physically
present (absent or already reaped). -/
def KVMap := String → Option KVEntry

/-- `Client.Set` (part_000 lines 91-104): atomic upsert storing
`toBytes value` with `expire_time = now + expire`.  The row is replaced
whether or not it was live. -/
def setKV (rows : KVMap) (key : String) (value : GoValue) (expire now : Int) : KVMap :=
  fun k => if k = key then some ⟨toBytes value, now + expire⟩ else rows k

/-- `Client.GetBytes` (part_000 lines 107-118): returns the value of the
row with `cache_key = key AND expire_time > now`; `ErrNotFound` when no
such live row exists. -/
def getBytes (rows : KVMap) (key : String) (now : Int) : Except CacheErr ByteVal :=
  match rows key with
  | some e => if now < e.expireAt then .ok e.value else .error .notFound
  | none => .error .notFound

/-- `Client.GetString` (part_000 lines 121-127): `GetBytes` then Go
`string(bytes)`. -/
def getString (rows : KVMap) (key : String) (now : Int) : Except CacheErr String :=
  match getBytes rows key now with
  | .ok b => .ok (goString b)
  | .error e => .error e

/-- `Client.SetNX` (part_000 lines 231-246): `INSERT IGNORE`, which
conflicts with any physically present row (live or expired); returns
`true` exactly when one row was inserted, leaving the table untouched on
conflict. -/
def setNX (rows : KVMap) (key : String) (value : GoValue) (expire now : Int) :
    Bool × KVMap :=
  match rows key with
  | some _ => (false, rows)
  | none => (true, fun k => if k = key then some ⟨toBytes value, now + expire⟩ else rows k)

/-- `Client.Expire` (part_000 lines 249-257): `UPDATE cache_kvs SET
expire_time = now + expire WHERE cache_key = key` with no liveness filter;
returns `true` exactly when a row was matched. -/
def expireKV (rows : KVMap) (key : String) (expire now : Int) : Bool × KVMap :=
  match rows key with
  | some e => (true, fun k => if k = key then some ⟨e.value, now + expire⟩ else rows k)
  | none => (false, rows)

/-- `cleanExpiredCache` (part_000 lines 52-67), one reaper tick: delete
every row with `expire_time <= now`. -/
def reapKV (rows : KVMap) (now : Int) : KVMap :=
  fun k => match rows k with
  | some e => if e.expireAt ≤ now then none else some e
  | none => none

/-- One row of `cache_maps`: `(cache_key, cache_field)` is unique, rows are
kept in primary-key (insertion) order. -/
structure MapRow where
  key : String
  field : String
  value : String
  deriving DecidableEq, Repr

/-- The `cache_maps` table, rows in id order. -/
abbrev MapRows := List MapRow

/-- `Client.SetMapField` (part_000 lines 149-158): atomic upsert on
`(cache_key, cache_field)`; an update keeps the row at its position, an
insert appends. -/
def setMapField (rows : MapRows) (key field value : String) : MapRows :=
  match rows with
  | [] => [⟨key, field, value⟩]
  | r :: rest =>
      if r.key = key ∧ r.field = field then ⟨key, field, value⟩ :: rest
      else r :: setMapField rest key field value

/-- The `WHERE cache_key = ? AND cache_field = ?` row predicate. -/
def rowMatch (key field : String) (r : MapRow) : Bool :=
  decide (r.key = key ∧ r.field = field)

/-- `Client.GetMapField` (part_000 lines 161-172): first row with
`cache_key = key AND cache_field = field`, else `ErrNotFound`. -/
def getMapField (rows : MapRows) (key field : String) : Except CacheErr String :=
  match rows.find? (rowMatch key field) with
  | some r => .ok r.value
  | none => .error .notFound

/-- `convertRegexToSQL` (part_000 lines 81-83): replace every `*` with the
SQL wildcard `%`. -/
def convertRegexToSQL (pattern : List Char) : List Char :=
  pattern.map (fun c => if c = '*' then '%' else c)

/-- SQL `LIKE` matching: `%` matches any sequence, `_` any single
character, other characters match themselves. -/
def likeMatch : List Char → List Char → Bool
  | [], s => s.isEmpty
  | '%' :: ps, s =>
      likeMatch ps s ||
        (match s with
         | [] => false
         | _ :: ss => likeMatch ('%' :: ps) ss)
  | '_' :: ps, s =>
      (match s with
       | [] => false
       | _ :: ss => likeMatch ps ss)
  | c :: ps, s =>
      (match s with
       | [] => false
       | x :: ss => x = c && likeMatch ps ss)
  termination_by p s => (p.length, s.length)

/-- The row filter of `Client.ScanMapStream` (part_000 lines 203-208):
`cache_key = key`, plus `cache_field LIKE convertRegexToSQL match` when a
match pattern is given. -/
def scanFilter (rows : MapRows) (key mtch : String) : MapRows :=
  rows.filter (fun r =>
    decide (r.key = key) &&
      (decide (mtch = "") || likeMatch (convertRegexToSQL mtch.data) r.field.data))

/-- `Client.ScanMapStream` (part_000 lines 201-228): offset/limit page over
the filtered rows, each row flattened to `field, value`; the next cursor is
`cursor + page length`, reset to `0` when the page is shorter than
`count`. -/
def scanMapStream (rows : MapRows) (key : String) (cursor : Nat) (mtch : String)
    (count : Nat) : List String × Nat :=
  let filtered := scanFilter rows key mtch
  let page := (filtered.drop cursor).take count
  let keys := (page.map (fun r => [r.field, r.value])).flatten
  let nextCursor := if page.length < count then 0 else cursor + page.length
  (keys, nextCursor)

/-- A caller's scan loop: call `ScanMapStream` from the given cursor,
feed each returned cursor into the next call, stop when the returned
cursor is `0`, and concatenate the returned flattened pages.  `fuel`
bounds the number of calls. -/
def scanCollect (rows : MapRows) (key mtch : String) (count : Nat) :
    Nat → Nat → List String
  | 0, _ => []
  | fuel + 1, cursor =>
      let r := scanMapStream rows key cursor mtch count
      if r.2 = 0 then r.1 else r.1 ++ scanCollect rows key mtch count fuel r.2

/-- The value of a decimal digit character, `none` for a non-digit. -/
def digitVal (c : Char) : Option Nat :=
  if '0' ≤ c ∧ c ≤ '9' then some (c.toNat - '0'.toNat) else none

/-- Decimal digit run to a number: fails on an empty run or a non-digit. -/
def digitsToNat : List Char → Option Nat
  | [] => none
  | cs => go 0 cs
where
  go (acc : Nat) : List Char → Option Nat
    | [] => some acc
    | c :: cs =>
        match digitVal c with
        | some d => go (acc * 10 + d) cs
        | none => none

/-- Go `strconv.ParseInt(s, 10, 64)`: optional sign, at least one decimal
digit, result within the signed 64-bit range. -/
def goParseInt (s : String) : Option Int :=
  let p : Bool × List Char :=
    match s.data with
    | '+' :: rest => (false, rest)
    | '-' :: rest => (true, rest)
    | l => (false, l)
  match digitsToNat p.2 with
  | none => none
  | some n =>
      let v : Int := if p.1 then -(n : Int) else (n : Int)
      if -(2 ^ 63) ≤ v ∧ v < 2 ^ 63 then some v else none

/-- Go signed 64-bit two's-complement wrap-around of `current + value`. -/
def wrap64 (x : Int) : Int := (x + 2 ^ 63) % 2 ^ 64 - 2 ^ 63

/-- `CmdableAdapter.IncrBy` (init.go lines 131-163): inside a transaction,
`GetString` the key treating `ErrNotFound` as `0`, otherwise
`strconv.ParseInt` the stored string (a failure aborts and rolls back the
transaction), add the delta in 64-bit arithmetic, and write the result
back with `Set(key, strconv.FormatInt(result, 10), 0)`.  The `.error`
result carries no table, modelling the rollback. -/
def incrBy (rows : KVMap) (key : String) (delta : Int) (now : Int) :
    Except CacheErr (KVMap × Int) :=
  match getString rows key now with
  | .error .notFound =>
      let result := wrap64 (0 + delta)
      .ok (setKV rows key (.str (toString result)) 0 now, result)
  | .error e => .error e
  | .ok s =>
      match goParseInt s with
      | none => .error .parseError
      | some current =>
          let result := wrap64 (current + delta)
          .ok (setKV rows key (.str (toString result)) 0 now, result)

/-- A variadic `interface{}` argument of `CmdableAdapter.HSet`: a string,
or a value of any other type (tagged). -/
inductive HVal where
  | str (s : String)
  | other (tag : Nat)
  deriving DecidableEq, Repr

/-- The even-offset adjacent pairing performed by the `HSet` loop
`for i := 0; i < len(values)-1; i += 2`: a trailing unpaired element is
dropped. -/
def hsetPairs : List HVal → List (HVal × HVal)
  | a :: b :: rest => (a, b) :: hsetPairs rest
  | _ => []

/-- One `HSet` loop iteration: a pair is stored via `SetMapField` only
when both components type-assert to `string`; otherwise it is skipped. -/
def hsetStep (key : String) (rows : MapRows) : HVal × HVal → MapRows
  | (.str f, .str v) => setMapField rows key f v
  | _ => rows

/-- `CmdableAdapter.HSet` (init.go lines 172-188): with fewer than two
arguments the call fails with `ErrNotFound`; otherwise every even-offset
string/string pair is stored via `SetMapField` and the call returns `1`. -/
def hset (rows : MapRows) (key : String) (values : List HVal) :
    Except CacheErr (MapRows × Int) :=
  if 2 ≤ values.length then
    .ok ((hsetPairs values).foldl (hsetStep key) rows, 1)
  else .error .notFound

/-- The string fields of the string/string pairs among a pair list (the
fields `HSet` actually writes). -/
def strFields : List (HVal × HVal) → List String
  | [] => []
  | (.str f, .str _) :: rest => f :: strFields rest
  | _ :: rest => strFields rest

/-- The result wrapper `StringCmdAdapter` (init.go lines 279-302). -/
structure StringCmdA where
  val : String
  err : Option CacheErr
  deriving DecidableEq, Repr

/-- The result wrapper `IntCmdAdapter` (init.go lines 304-315). -/
structure IntCmdA where
  val : Int
  err : Option CacheErr
  deriving DecidableEq, Repr

/-- The result wrapper `StatusCmdAdapter` (init.go lines 267-277). -/
structure StatusCmdA where
  err : Option CacheErr
  deriving DecidableEq, Repr

/-- The result wrapper `StringSliceCmdAdapter` (init.go lines 343-354). -/
structure StringSliceCmdA where
  val : List String
  err : Option CacheErr
  deriving DecidableEq, Repr

/-- `CmdableAdapter.LIndex` (init.go lines 231-234): list operations are
unsupported, always `ErrNotFound`. -/
def lIndex (_key : String) (_index : Int) : StringCmdA := ⟨"", some .notFound⟩

/-- `CmdableAdapter.LPush` (init.go lines 237-240): always `ErrNotFound`. -/
def lPush (_key : String) (_values : List GoValue) : IntCmdA := ⟨0, some .notFound⟩

/-- `CmdableAdapter.RPush` (init.go lines 243-246): always `ErrNotFound`. -/
def rPush (_key : String) (_values : List GoValue) : IntCmdA := ⟨0, some .notFound⟩

/-- `CmdableAdapter.LSet` (init.go lines 249-252): always `ErrNotFound`. -/
def lSet (_key : String) (_index : Int) (_value : GoValue) : StatusCmdA :=
  ⟨some .notFound⟩

/-- `CmdableAdapter.LPop` (init.go lines 255-258): always `ErrNotFound`. -/
def lPop (_key : String) : StringCmdA := ⟨"", some .notFound⟩

/-- `CmdableAdapter.LRange` (init.go lines 261-264): always `ErrNotFound`. -/
def lRange (_key : String) (_start _stop : Int) : StringSliceCmdA :=
  ⟨[], some .notFound⟩

/-- `PipelinerAdapter.Exec` (init.go lines 362-364): executing the no-op
pipeline always fails with `ErrNotFound`. -/
def pipelinerExec : Except CacheErr (List Unit) := .error .notFound

/-- One row of `cache_messages`: auto-increment id, channel, payload. -/
structure Msg where
  id : Int
  channel : String
  payload : String
  deriving DecidableEq, Repr

/-- The `ORDER BY id ASC` comparison on message rows. -/
def msgLe (a b : Msg) : Prop := a.id ≤ b.id

instance : DecidableRel msgLe := fun a b => inferInstanceAs (Decidable (a.id ≤ b.id))

instance : IsTotal Msg msgLe := ⟨fun a b => Int.le_total a.id b.id⟩

instance : IsTrans Msg msgLe := ⟨fun _ _ _ h h2 => le_trans h h2⟩

/-- The in-memory state of one subscriber's polling goroutine
(part_000 lines 283-339): the `LastMessageId` cursor (initially `-1`) and
the sequence of messages handed off to the consumer channel so far. -/
structure SubState where
  last : Int
  delivered : List Msg
  deriving Repr

/-- The initial subscription state: `LastMessageId = -1`, nothing
delivered. -/
def subInit : SubState := ⟨-1, []⟩

/-- The delivery loop body over one fetched batch (part_000 lines
321-331): each message is handed off to the channel, then the cursor is
advanced (and persisted) to that message's id. -/
def pollDeliver (s : SubState) (batch : List Msg) : SubState :=
  batch.foldl (fun st m => ⟨m.id, st.delivered ++ [m]⟩) s

/-- One poll tick (part_000 lines 310-331): fetch rows with
`channel = ch AND id > last` ordered by `id ASC` limited to 10, then
deliver them in order. -/
def pollStep (table : List Msg) (ch : String) (s : SubState) : SubState :=
  let batch :=
    ((table.filter (fun m => decide (m.channel = ch ∧ s.last < m.id))).insertionSort
        msgLe).take 10
  pollDeliver s batch

/-- A run of the polling loop: one tick per element of `tables`, each tick
seeing the message table as it is at that moment (the table may grow
between ticks). -/
def runPolls (ch : String) (tables : List (List Msg)) (s : SubState) : SubState :=
  tables.foldl (fun st t => pollStep t ch st) s

/-- The invariant of the polling loop: the hand-off sequence is sorted by
id, and the persisted cursor bounds every delivered id. -/
def subInv (s : SubState) : Prop :=
  s.delivered.Sorted msgLe ∧ ∀ m ∈ s.delivered, m.id ≤ s.last

instance : DecidableEq (Except CacheErr String) := fun
  | .ok a, .ok b => if h : a = b then .isTrue (by rw [h]) else .isFalse (by simp [h])
  | .error a, .error b =>
      if h : a = b then .isTrue (by rw [h]) else .isFalse (by simp [h])
  | .ok _, .error _ => .isFalse (by simp)
  | .error _, .ok _ => .isFalse (by simp)

instance : DecidableEq (Except CacheErr (MapRows × Int)) := fun
  | .ok a, .ok b => if h : a = b then .isTrue (by rw [h]) else .isFalse (by simp [h])
  | .error a, .error b =>
      if h : a = b then .isTrue (by rw [h]) else .isFalse (by simp [h])
  | .ok _, .error _ => .isFalse (by simp)
  | .error _, .ok _ => .isFalse (by simp)

instance : DecidableEq (Except CacheErr (Option KVEntry × Int)) := fun
  | .ok a, .ok b => if h : a = b then .isTrue (by rw [h]) else .isFalse (by simp [h])
  | .error a, .error b =>
      if h : a = b then .isTrue (by rw [h]) else .isFalse (by simp [h])
  | .ok _, .error _ => .isFalse (by simp)
  | .error _, .ok _ => .isFalse (by simp)

/-- A concrete `cache_kvs` table holding a live counter row: key `ctr`,
stored string value `5`, expiry stamp `100`. -/
def incrDemoRows : KVMap :=
  fun k => if k = "ctr" then some ⟨some "5", 100⟩ else none

/-- C2: `Set(key, value, 0)` stores `expire_time = now + 0 = now`, and
`GetBytes` only returns rows with `expire_time > now`, so an entry written
with ttl `0` is already expired at the instant it is written and at every
later instant: `GetString` fails with `NotFound`, contradicting the spec's
"never expires".  Evaluated at the failing input `Set("k","v",0)` at time
`0` followed by `GetString("k")` at times `0` and `1`; the third conjunct
shows the stored expiry always equals the write time. -/
theorem set_zero_ttl_expires_immediately :
    getString (setKV (fun _ => none) "k" (.str "v") 0 0) "k" 0 = .error .notFound
    ∧ getString (setKV (fun _ => none) "k" (.str "v") 0 0) "k" 1 = .error .notFound
    ∧ ∀ (rows : KVMap) (key v : String) (now : Int),
        setKV rows key (.str v) 0 now key = some ⟨some v, now⟩ := by
  refine ⟨by decide, by decide, fun rows key v now => ?_⟩
  simp [setKV, toBytes]

/-- C3: after `Set(k, v, ttl)` with `ttl > 0`, `GetString(k)` returns `v`
at every time before `now + ttl`, and fails with `NotFound` at every time
from `now + ttl` on (the physical row is still present, i.e. not yet
reaped). -/
theorem set_get_ttl (rows : KVMap) (k v : String) (ttl now t : Int) (httl : 0 < ttl) :
    (t < now + ttl → getString (setKV rows k (.str v) ttl now) k t = .ok v)
    ∧ (now + ttl ≤ t →
        getString (setKV rows k (.str v) ttl now) k t = .error .notFound) := by
  constructor
  · intro h
    simp [getString, getBytes, setKV, toBytes, goString, h]
  · intro h
    simp [getString, getBytes, setKV, toBytes, not_lt.mpr h]

/-- Witness for `set_get_ttl`: `Set("k","v",5)` at time `0`, read at times
`3` (live) and `5` (expired). -/
theorem set_get_ttl_witness :
    getString (setKV (fun _ => none) "k" (.str "v") 5 0) "k" 3 = .ok "v"
    ∧ getString (setKV (fun _ => none) "k" (.str "v") 5 0) "k" 5
        = .error .notFound :=
  ⟨(set_get_ttl (fun _ => none) "k" "v" 5 0 3 (by decide)).1 (by decide),
   (set_get_ttl (fun _ => none) "k" "v" 5 0 5 (by decide)).2 (by decide)⟩

/-- C4: on a physically absent key the first `SetNX` returns `true`; an
immediately following `SetNX` on the now-present key returns `false` and
leaves the table (hence the TTL) untouched, and before the ttl elapses
`GetString` returns the first value; in general `SetNX` returns `true`
exactly when the insertion happened. -/
theorem setNX_first_wins (rows : KVMap) (k v1 v2 : String) (ttl now t : Int)
    (habs : rows k = none) (httl : 0 < ttl) (ht : t < now + ttl) :
    (setNX rows k (.str v1) ttl now).1 = true
    ∧ (setNX (setNX rows k (.str v1) ttl now).2 k (.str v2) ttl now).1 = false
    ∧ (setNX (setNX rows k (.str v1) ttl now).2 k (.str v2) ttl now).2
        = (setNX rows k (.str v1) ttl now).2
    ∧ getString (setNX (setNX rows k (.str v1) ttl now).2 k (.str v2) ttl now).2 k t
        = .ok v1
    ∧ ∀ (rows2 : KVMap) (k2 : String) (v : GoValue) (ttl2 now2 : Int),
        (setNX rows2 k2 v ttl2 now2).1 = true ↔ rows2 k2 = none := by
  refine ⟨?_, ?_, ?_, ?_, ?_⟩
  · simp [setNX, habs]
  · simp [setNX, habs]
  · simp [setNX, habs]
  · simp [setNX, habs, getString, getBytes, toBytes, goString, ht]
  · intro rows2 k2 v ttl2 now2
    cases h : rows2 k2 <;> simp [setNX, h]

/-- Witness for `setNX_first_wins`: empty table, `SetNX("k","a",5)` then
`SetNX("k","b",5)` at time `0`, read at time `3`. -/
theorem setNX_first_wins_witness :
    (setNX (fun _ => none) "k" (.str "a") 5 0).1 = true
    ∧ (setNX (setNX (fun _ => none) "k" (.str "a") 5 0).2 "k" (.str "b") 5 0).1
        = false := by
  have h := setNX_first_wins (fun _ => none) "k" "a" "b" 5 0 3 rfl (by decide) (by decide)
  exact ⟨h.1, h.2.1⟩

/-- C5: every list operation of the Command Adapter (`LIndex`, `LPush`,
`RPush`, `LSet`, `LPop`, `LRange`) carries `ErrNotFound` for every key and
arguments (the functions are total, so there is no panic and no silent
success), and executing the adapter's pipeline object fails with
`ErrNotFound`. -/
theorem list_ops_always_notFound (key : String) (index : Int)
    (values : List GoValue) (value : GoValue) (start stop : Int) :
    (lIndex key index).err = some .notFound
    ∧ (lPush key values).err = some .notFound
    ∧ (rPush key values).err = some .notFound
    ∧ (lSet key index value).err = some .notFound
    ∧ (lPop key).err = some .notFound
    ∧ (lRange key start stop).err = some .notFound
    ∧ pipelinerExec = .error .notFound :=
  ⟨rfl, rfl, rfl, rfl, rfl, rfl, rfl⟩

/-- C9: for every value that is neither a byte slice nor a string,
`toBytes` silently returns the nil slice, so `Set` stores a row whose blob
is nil, and `SetNX` on an absent key reports success and stores a nil
blob — there is no validation error path. -/
theorem set_other_stores_nil (tag : Nat) (rows : KVMap) (k : String) (ttl now : Int) :
    toBytes (.other tag) = none
    ∧ setKV rows k (.other tag) ttl now k = some ⟨none, now + ttl⟩
    ∧ (rows k = none →
        (setNX rows k (.other tag) ttl now).1 = true
        ∧ (setNX rows k (.other tag) ttl now).2 k = some ⟨none, now + ttl⟩) := by
  refine ⟨rfl, by simp [setKV, toBytes], fun habs => ?_⟩
  constructor
  · simp [setNX, habs]
  · simp [setNX, habs, toBytes]

/-- Witness for `set_other_stores_nil`: a non-string, non-bytes value
stored by `SetNX` in the empty table. -/
theorem set_other_stores_nil_witness :
    (setNX (fun _ => none) "k" (.other 0) 5 0).1 = true
    ∧ (setNX (fun _ => none) "k" (.other 0) 5 0).2 "k" = some ⟨none, 5⟩ :=
  (set_other_stores_nil 0 (fun _ => none) "k" 5 0).2.2 rfl

/-- C10: on a physically present but expired row (`GetString` currently
fails with `NotFound`), `Expire` with `ttl > 0` matches the row — the
update has no liveness filter — so it returns `true` and resurrects the
entry: before the new expiry, `GetBytes`/`GetString` return the pre-expiry
value. -/
theorem expire_resurrects (rows : KVMap) (k : String) (e : KVEntry) (ttl now t : Int)
    (hrow : rows k = some e) (hexp : e.expireAt ≤ now) (httl : 0 < ttl)
    (ht : t < now + ttl) :
    getString rows k now = .error .notFound
    ∧ (expireKV rows k ttl now).1 = true
    ∧ getBytes (expireKV rows k ttl now).2 k t = .ok e.value
    ∧ getString (expireKV rows k ttl now).2 k t = .ok (goString e.value) := by
  refine ⟨?_, ?_, ?_, ?_⟩
  · simp [getString, getBytes, hrow, not_lt.mpr hexp]
  · simp [expireKV, hrow]
  · simp [expireKV, hrow, getBytes, ht]
  · simp [expireKV, hrow, getString, getBytes, ht]

/-- Witness for `expire_resurrects`: a row expired at time `5`, observed
at time `10`, resurrected with ttl `7`, read at time `12`. -/
theorem expire_resurrects_witness :
    getString (fun k => if k = "k" then some ⟨some "v", 5⟩ else none) "k" 10
      = .error .notFound
    ∧ (expireKV (fun k => if k = "k" then some ⟨some "v", 5⟩ else none) "k" 7 10).1
        = true
    ∧ getString
        (expireKV (fun k => if k = "k" then some ⟨some "v", 5⟩ else none) "k" 7 10).2
        "k" 12 = .ok "v" := by
  have h := expire_resurrects (fun k => if k = "k" then some ⟨some "v", 5⟩ else none)
    "k" ⟨some "v", 5⟩ 7 10 12 (by simp) (by decide) (by decide) (by decide)
  exact ⟨h.1, h.2.1, h.2.2.2⟩

/-- C1 counterexample: `IncrBy` is *not* TTL-preserving.  On a table whose
counter row `ctr` holds `"5"` with expiry stamp `100`, `IncrBy("ctr", 1)`
at time `10` succeeds with value `6` but rewrites the row's expiry to `10`
(the write uses `Set(key, value, 0)`), so the stored TTL changed from
`100` to `10`, refuting "with no TTL change". -/
theorem incrBy_changes_ttl :
    incrDemoRows "ctr" = some ⟨some "5", 100⟩
    ∧ (incrBy incrDemoRows "ctr" 1 10).map (fun p => (p.1 "ctr", p.2))
        = .ok (some ⟨some "6", 10⟩, 6)
    ∧ (100 : Int) ≠ 10 := by
  refine ⟨by decide, by decide, by decide⟩

/-- C1 (amended): `IncrBy(key, delta)` runs in a transaction: it reads the
current value via `GetString`, treats `NotFound` as `0`, otherwise parses
the stored string as a decimal 64-bit integer — a parse failure makes the
whole call fail and the transaction roll back, never coercing to zero —
adds the delta in 64-bit arithmetic, and writes the result back as a
string-encoded integer via `Set` with ttl `0`, which resets the stored
expiry to the write time. -/
theorem incrBy_spec (rows : KVMap) (k : String) (delta now : Int) :
    (getString rows k now = .error .notFound →
      incrBy rows k delta now
        = .ok (setKV rows k (.str (toString (wrap64 delta))) 0 now, wrap64 delta))
    ∧ (∀ s current, getString rows k now = .ok s → goParseInt s = some current →
      incrBy rows k delta now
        = .ok (setKV rows k (.str (toString (wrap64 (current + delta)))) 0 now,
            wrap64 (current + delta)))
    ∧ (∀ s, getString rows k now = .ok s → goParseInt s = none →
      incrBy rows k delta now = .error .parseError) := by
  refine ⟨fun h => ?_, fun s current h hp => ?_, fun s h hp => ?_⟩
  · simp [incrBy, h]
  · simp [incrBy, h, hp]
  · simp [incrBy, h, hp]

/-- Witness for `incrBy_spec`: the stored-non-integer branch — on a table
whose row `ctr` holds `"abc"`, `IncrBy` fails (the transaction rolls back)
rather than treating the value as zero. -/
theorem incrBy_spec_witness :
    incrBy (fun k => if k = "ctr" then some ⟨some "abc", 100⟩ else none) "ctr" 1 10
      = .error .parseError :=
  (incrBy_spec (fun k => if k = "ctr" then some ⟨some "abc", 100⟩ else none)
    "ctr" 1 10).2.2 "abc" (by decide) (by decide)

/-- `SetMapField` followed by `GetMapField` on the same `(key, field)`
returns the written value. -/
theorem getMapField_set_same (rows : MapRows) (k f v : String) :
    getMapField (setMapField rows k f v) k f = .ok v := by
  have hnew : rowMatch k f ⟨k, f, v⟩ = true := by simp [rowMatch]
  induction rows with
  | nil => simp only [setMapField, getMapField, List.find?_cons_of_pos _ hnew]
  | cons r rest ih =>
      by_cases h : r.key = k ∧ r.field = f
      · have hr : rowMatch k f r = true := by simp [rowMatch, h.1, h.2]
        simp only [setMapField, if_pos h, getMapField,
          List.find?_cons_of_pos _ hnew]
      · have hr : ¬rowMatch k f r = true := by
          simp only [rowMatch, decide_eq_true_eq]; exact h
        simp only [setMapField, if_neg h, getMapField,
          List.find?_cons_of_neg _ hr]
        simpa only [getMapField] using ih

/-- `SetMapField` leaves every other `(key, field)` untouched. -/
theorem getMapField_set_other (rows : MapRows) (k f v k2 f2 : String)
    (h : ¬(k = k2 ∧ f = f2)) :
    getMapField (setMapField rows k f v) k2 f2 = getMapField rows k2 f2 := by
  have hnew : ¬rowMatch k2 f2 ⟨k, f, v⟩ = true := by
    simp only [rowMatch, decide_eq_true_eq]; exact h
  induction rows with
  | nil =>
      simp only [setMapField, getMapField, List.find?_cons_of_neg _ hnew,
        List.find?_nil]
  | cons r rest ih =>
      by_cases hr : r.key = k ∧ r.field = f
      · have hr2 : ¬rowMatch k2 f2 r = true := by
          simp only [rowMatch, decide_eq_true_eq]
          rw [hr.1, hr.2]; exact h
        simp only [setMapField, if_pos hr, getMapField,
          List.find?_cons_of_neg _ hnew, List.find?_cons_of_neg _ hr2]
      · by_cases h2 : rowMatch k2 f2 r = true
        · simp only [setMapField, if_neg hr, getMapField,
            List.find?_cons_of_pos _ h2]
        · simp only [setMapField, if_neg hr, getMapField,
            List.find?_cons_of_neg _ h2]
          simpa only [getMapField] using ih

/-- Folding `HSet` pairs whose string fields avoid `f` does not change
`GetMapField` at `f`. -/
theorem hsetFold_notin (key f : String) (ps : List (HVal × HVal)) :
    ∀ rows : MapRows, f ∉ strFields ps →
      getMapField (ps.foldl (hsetStep key) rows) key f = getMapField rows key f := by
  induction ps with
  | nil => intro rows _; rfl
  | cons p rest ih =>
      intro rows hnotin
      match p with
      | (.str g, .str w) =>
          have hne : g ≠ f := by
            intro he
            exact hnotin (by simp [strFields, he])
          have hrest : f ∉ strFields rest := by
            intro hm
            exact hnotin (by simp [strFields, hm])
          simp only [List.foldl_cons, hsetStep]
          rw [ih (setMapField rows key g w) hrest]
          exact getMapField_set_other rows key g w key f (by
            intro hc
            exact hne hc.2)
      | (.str g, .other t) =>
          simp only [List.foldl_cons, hsetStep]
          exact ih rows (by
            intro hm
            exact hnotin (by simpa [strFields] using hm))
      | (.other t, b) =>
          simp only [List.foldl_cons, hsetStep]
          exact ih rows (by
            intro hm
            exact hnotin (by simpa [strFields] using hm))

/-- If `(f, v)` is one of the string pairs written by `HSet` and the
written string fields are distinct, then after the fold `GetMapField` at
`f` returns `v`. -/
theorem hsetFold_mem (key f v : String) (ps : List (HVal × HVal)) :
    ∀ rows : MapRows, (HVal.str f, HVal.str v) ∈ ps → (strFields ps).Nodup →
      getMapField (ps.foldl (hsetStep key) rows) key f = .ok v := by
  induction ps with
  | nil => intro rows hmem _; cases hmem
  | cons p rest ih =>
      intro rows hmem hnd
      rcases List.mem_cons.mp hmem with heq | hmem2
      · subst heq
        simp only [List.foldl_cons, hsetStep]
        have hnotin : f ∉ strFields rest := by
          have := List.nodup_cons.mp (by simpa [strFields] using hnd)
          exact this.1
        rw [hsetFold_notin key f rest (setMapField rows key f v) hnotin]
        exact getMapField_set_same rows key f v
      · have hndrest : (strFields rest).Nodup := by
          match p with
          | (.str g, .str w) => exact (List.nodup_cons.mp (by simpa [strFields] using hnd)).2
          | (.str g, .other t) => simpa [strFields] using hnd
          | (.other t, b) => simpa [strFields] using hnd
        simp only [List.foldl_cons]
        exact ih (hsetStep key rows p) hmem2 hndrest

/-- C6 counterexample: a three-element (odd-length) argument sequence does
*not* fail — `HSet("k", "f", "v", "x")` succeeds with result `1`, silently
dropping the trailing `"x"` and storing only the pair `("f","v")`. -/
theorem hset_odd_succeeds :
    ([HVal.str "f", HVal.str "v", HVal.str "x"].length % 2 = 1)
    ∧ hset [] "k" [HVal.str "f", HVal.str "v", HVal.str "x"]
        = .ok ([⟨"k", "f", "v"⟩], 1) :=
  ⟨by decide, by decide⟩

/-- C6 (amended): `HSet` fails (with `ErrNotFound`) exactly when fewer
than two arguments are given; otherwise it succeeds with result `1`,
pairing the arguments at even offsets — a trailing unpaired element of an
odd-length sequence is silently dropped, and pairs whose components are
not both strings are silently skipped — and stores every string
`(field, value)` pair via `SetMapField`. -/
theorem hset_spec (rows : MapRows) (key : String) (values : List HVal) :
    (values.length < 2 → hset rows key values = .error .notFound)
    ∧ (2 ≤ values.length → ∃ rows2, hset rows key values = .ok (rows2, 1))
    ∧ (∀ f v rows2, hset rows key values = .ok (rows2, 1) →
        (HVal.str f, HVal.str v) ∈ hsetPairs values →
        (strFields (hsetPairs values)).Nodup →
        getMapField rows2 key f = .ok v) := by
  refine ⟨fun h => ?_, fun h => ?_, fun f v rows2 hok hmem hnd => ?_⟩
  · simp [hset, not_le.mpr h]
  · exact ⟨(hsetPairs values).foldl (hsetStep key) rows, by simp [hset, h]⟩
  · have hlen : 2 ≤ values.length := by
      by_contra hc
      simp [hset, not_le.mp hc] at hok
      rw [if_neg (by omega)] at hok
      cases hok
    have heq : rows2 = (hsetPairs values).foldl (hsetStep key) rows := by
      simp only [hset, if_pos hlen, Except.ok.injEq, Prod.mk.injEq] at hok
      exact hok.1.symm
    subst heq
    exact hsetFold_mem key f v (hsetPairs values) rows hmem hnd

/-- Witness for `hset_spec`: `HSet("k", "a", "1", "b", "2")` stores both
pairs; reading field `a` back gives `1`. -/
theorem hset_spec_witness :
    getMapField [⟨"k", "a", "1"⟩, ⟨"k", "b", "2"⟩] "k" "a" = .ok "1" :=
  (hset_spec [] "k" [.str "a", .str "1", .str "b", .str "2"]).2.2 "a" "1"
    [⟨"k", "a", "1"⟩, ⟨"k", "b", "2"⟩] (by decide) (by decide) (by decide)

/-- The scan loop, run with enough fuel from any cursor, returns exactly
the flattening of the filtered rows from that cursor on. -/
theorem scanCollect_eq_drop (rows : MapRows) (key mtch : String) (count : Nat)
    (hc : 1 ≤ count) :
    ∀ fuel cursor, (scanFilter rows key mtch).length < cursor + fuel * count →
      scanCollect rows key mtch count fuel cursor
        = (((scanFilter rows key mtch).drop cursor).map
            (fun r => [r.field, r.value])).flatten := by
  intro fuel
  induction fuel with
  | zero =>
      intro cursor h
      have hd : (scanFilter rows key mtch).drop cursor = [] :=
        List.drop_eq_nil_of_le (by omega)
      simp [scanCollect, hd]
  | succ fuel ih =>
      intro cursor h
      by_cases hlt : (((scanFilter rows key mtch).drop cursor).take count).length < count
      · have hdlen : ((scanFilter rows key mtch).drop cursor).length < count := by
          rw [List.length_take] at hlt
          omega
        have htake : ((scanFilter rows key mtch).drop cursor).take count
            = (scanFilter rows key mtch).drop cursor :=
          List.take_of_length_le (by omega)
        simp only [scanCollect, scanMapStream]
        rw [if_pos hlt, if_pos rfl, htake]
      · have hplen : (((scanFilter rows key mtch).drop cursor).take count).length
            = count := by
          rw [List.length_take] at hlt ⊢
          omega
        have hnz : ¬(cursor + count = 0) := by omega
        have hrec := ih (cursor + count) (by
          have h2 := h
          rw [Nat.succ_mul] at h2
          omega)
        simp only [scanCollect, scanMapStream]
        rw [if_neg hlt, hplen, if_neg hnz]
        rw [hrec, ← List.drop_drop, ← List.flatten_append, ← List.map_append,
          List.take_append_drop]

/-- C7: iterating `ScanMapStream` from cursor `0`, feeding each returned
cursor into the next call until the returned cursor is `0`, concatenates
to exactly the flattened `(field, value)` rows of the scanned map (the
rows with the scanned key matching the pattern), in table order, with no
duplicates and no omissions — for any page size `count ≥ 1` (with enough
iterations allowed); and a returned cursor is `0` exactly when the page
held fewer than `count` rows. -/
theorem scanMapStream_complete (rows : MapRows) (key mtch : String)
    (count fuel : Nat) (hc : 1 ≤ count) (hfuel : rows.length < fuel * count) :
    scanCollect rows key mtch count fuel 0
      = ((scanFilter rows key mtch).map (fun r => [r.field, r.value])).flatten
    ∧ ∀ cursor,
        ((scanMapStream rows key cursor mtch count).2 = 0
          ↔ (((scanFilter rows key mtch).drop cursor).take count).length < count) := by
  constructor
  · have hlen : (scanFilter rows key mtch).length ≤ rows.length :=
      List.length_filter_le _ _
    have h := scanCollect_eq_drop rows key mtch count hc fuel 0 (by omega)
    simpa using h
  · intro cursor
    by_cases hlt : (((scanFilter rows key mtch).drop cursor).take count).length < count
    · simp only [scanMapStream]
      rw [if_pos hlt]
      exact iff_of_true rfl hlt
    · have hplen : (((scanFilter rows key mtch).drop cursor).take count).length
          = count := by
        rw [List.length_take] at hlt ⊢
        omega
      simp only [scanMapStream]
      rw [if_neg hlt, hplen]
      exact iff_of_false (by omega) (by omega)

/-- Witness for `scanMapStream_complete`: a two-field map scanned with
page size `1` yields both fields. -/
theorem scanMapStream_complete_witness :
    scanCollect [⟨"k", "a", "1"⟩, ⟨"k", "b", "2"⟩] "k" "" 1 3 0
      = ["a", "1", "b", "2"] :=
  ((scanMapStream_complete [⟨"k", "a", "1"⟩, ⟨"k", "b", "2"⟩] "k" "" 1 3
      (by decide) (by decide)).1).trans (by decide)

/-- Delivering a batch that is sorted by id and entirely at or above the
current cursor preserves the polling invariant. -/
theorem pollDeliver_inv (batch : List Msg) :
    ∀ s : SubState, subInv s → batch.Sorted msgLe →
      (∀ m ∈ batch, s.last ≤ m.id) → subInv (pollDeliver s batch) := by
  induction batch with
  | nil => exact fun s hs _ _ => hs
  | cons m0 rest ih =>
      intro s hs hsort hge
      obtain ⟨hm, hrest⟩ := List.sorted_cons.mp hsort
      have hm0 : s.last ≤ m0.id := hge m0 (List.mem_cons_self m0 rest)
      simp only [pollDeliver, List.foldl_cons]
      apply ih ⟨m0.id, s.delivered ++ [m0]⟩ ?_ hrest ?_
      · constructor
        · apply List.pairwise_append.mpr
          refine ⟨hs.1, List.pairwise_singleton _ _, ?_⟩
          intro a ha b hb
          have hb2 : b = m0 := by simpa using hb
          subst hb2
          exact le_trans (hs.2 a ha) hm0
        · intro x hx
          rcases List.mem_append.mp hx with h1 | h2
          · exact le_trans (hs.2 x h1) hm0
          · have hx2 : x = m0 := by simpa using h2
            subst hx2
            exact le_refl _
      · exact fun x hx => hm x hx

/-- One poll tick preserves the polling invariant: the fetched batch is
sorted by id and every fetched id is above the cursor. -/
theorem pollStep_inv (table : List Msg) (ch : String) (s : SubState)
    (hs : subInv s) : subInv (pollStep table ch s) := by
  apply pollDeliver_inv _ s hs
  · exact List.Pairwise.sublist (List.take_sublist _ _)
      (List.sorted_insertionSort msgLe _)
  · intro m hm
    have hm2 : m ∈ (table.filter
        (fun m => decide (m.channel = ch ∧ s.last < m.id))).insertionSort msgLe :=
      List.mem_of_mem_take hm
    rw [List.mem_insertionSort] at hm2
    have hmem := List.mem_filter.mp hm2
    have hprop := of_decide_eq_true hmem.2
    exact le_of_lt hprop.2

/-- Any run of the polling loop preserves the invariant. -/
theorem runPolls_inv (ch : String) (tables : List (List Msg)) :
    ∀ s : SubState, subInv s → subInv (runPolls ch tables s) := by
  induction tables with
  | nil => exact fun s hs => hs
  | cons t rest ih =>
      intro s hs
      exact ih _ (pollStep_inv t ch s hs)

/-- C8: over any sequence of poll ticks (the message table may differ at
each tick), the sequence of messages a subscriber's polling loop hands off
to the consumer channel is in non-decreasing id order: each tick fetches
only rows with `id > lastDeliveredId` ordered by id ascending in a batch
of at most 10, and the cursor is advanced to a message's id only after
that message has been handed off. -/
theorem subscribe_nondecreasing (ch : String) (tables : List (List Msg)) :
    ((runPolls ch tables subInit).delivered).Pairwise msgLe := by
  have h := runPolls_inv ch tables subInit ⟨List.Pairwise.nil, by simp [subInit]⟩
  exact h.1

end ObCache
